import Mathlib

/-
Verification of the playlist engine of `playlist_glass_ui.py`.

The Python program keeps a doubly linked list of song nodes (`Node`,
`DoublyLinkedList`), a dict from song name to node (`song_map`), a history
stack (`history`), a current-song reference and two playback flags
(`is_playing`, `is_paused`).  Python object references are embedded as
indices into an arena (`Player.arena`): every `Node(...)` allocation appends
a slot, and a slot is never removed, mirroring the fact that Python objects
stay alive while `song_map` / `history` / `current_song_node` may still
reference them.  Field reads and writes through references become reads and
writes of the evolving arena, which reproduces Python's aliasing semantics.

GUI-only effects (listbox rendering, highlighting, button captions, message
boxes) are out of scope; message boxes that carry an outcome are embedded as
returned `Msg` / `SearchRes` values.
-/

set_option maxHeartbeats 1000000

namespace Musik

/-- A node of the doubly linked playlist: mirrors class `Node` of the source
(`data` is the file path; `next`/`prev` are arena indices standing for the
Python object references, `none` for Python `None`). -/
structure PNode where
  data : String
  next : Option Nat
  prev : Option Nat
deriving DecidableEq

/-- Default node used by the total arena read (never hit on indices that a
reachable program state actually stores). -/
def dfltNode : PNode := ⟨"", none, none⟩

/-- Dereference an arena index (a Python attribute read `node.x` goes through
`nodeAt`). -/
def nodeAt (arena : List PNode) (i : Nat) : PNode := arena.getD i dfltNode

/-- The whole mutable state of `MusicPlayer` that is in scope: the node arena,
the `DoublyLinkedList` endpoints (`head`, `tail`), the dict `song_map`
(embedded as an insertion-ordered association list, as Python dicts preserve
insertion order), the `history` stack, the unused `upcoming` queue, the
current-song reference and the two playback flags. -/
structure Player where
  arena : List PNode
  head : Option Nat
  tail : Option Nat
  song_map : List (String × Nat)
  history : List Nat
  upcoming : List Nat
  current_song_node : Option Nat
  is_playing : Bool
  is_paused : Bool
deriving DecidableEq

/-- The state built by `MusicPlayer.__init__`. -/
def initPlayer : Player :=
  { arena := [], head := none, tail := none, song_map := [], history := [],
    upcoming := [], current_song_node := none, is_playing := false,
    is_paused := false }

/-- The playback mode encoded by the two flags (spec names). -/
inductive Mode where
  | stopped
  | playing
  | paused
deriving DecidableEq

/-- Decode `(is_playing, is_paused)` into the spec's mode. -/
def mode (s : Player) : Mode :=
  if s.is_playing then .playing else if s.is_paused then .paused else .stopped

/-- User-facing message boxes that carry an outcome (titles from the source:
"No Selection", "No Song", "End of Playlist", "No History"). -/
inductive Msg where
  | noSelection
  | noSong
  | endOfPlaylist
  | noHistory
deriving DecidableEq

/-- Outcome of `search_song`: no message at all (empty query), the "Found"
box, or the "Not Found" box. -/
inductive SearchRes where
  | silent
  | found (name : String)
  | notFound
deriving DecidableEq

/-- `os.path.basename`: the part of the path after the last separator
(computed by a structural fold so that the kernel can evaluate it). -/
def basename (p : String) : String :=
  ⟨p.data.foldl (fun acc c => if c = '/' then [] else acc ++ [c]) []⟩

/-- Drop leading whitespace from a character list. -/
def dropLeadWS : List Char → List Char
  | [] => []
  | c :: t => if c.isWhitespace then dropLeadWS t else c :: t

/-- Python `str.strip()`: whitespace removed from both ends. -/
def pyStrip (s : String) : String :=
  ⟨dropLeadWS ((dropLeadWS s.data.reverse).reverse)⟩

/-- Python `str.lower()` (ASCII case mapping suffices for the model). -/
def pyLower (s : String) : String :=
  ⟨s.data.map Char.toLower⟩

/-- Python `dict.get`: first (and only) binding of the key. -/
def mapGet (m : List (String × Nat)) (k : String) : Option Nat :=
  match m with
  | [] => none
  | (n, i) :: rest => if n = k then some i else mapGet rest k

/-- Python `k in dict`. -/
def containsKey (m : List (String × Nat)) (k : String) : Bool :=
  m.any (fun p => p.1 = k)

/-- Python `del dict[k]`: drop the (unique) binding of the key. -/
def eraseKey (m : List (String × Nat)) (k : String) : List (String × Nat) :=
  match m with
  | [] => []
  | p :: rest => if p.1 = k then rest else p :: eraseKey rest k

/-- Python `needle in hay` on strings, on the character lists. -/
def hasInfix (needle : List Char) : List Char → Bool
  | [] => needle.isEmpty
  | c :: t => needle.isPrefixOf (c :: t) || hasInfix needle t

/-- `query.lower() in song_name.lower()` from `search_song`. -/
def strContainsCI (hay needle : String) : Bool :=
  hasInfix (pyLower needle).data (pyLower hay).data

/-- The fallback loop of `search_song`: first dict entry (in insertion
order) whose name contains the query case-insensitively. -/
def firstSubstrMatch (m : List (String × Nat)) (q : String) : Option Nat :=
  match m with
  | [] => none
  | (n, i) :: rest => if strContainsCI n q then some i else firstSubstrMatch rest q

/-- `DoublyLinkedList.add_song`: link an (already allocated) node `n` at the
tail.  The impossible `head ≠ None, tail = None` combination (where Python
would raise `AttributeError`) is mapped to the unchanged state. -/
def dllAddSong (s : Player) (n : Nat) : Player :=
  match s.head with
  | none => { s with head := some n, tail := some n }
  | some _ =>
    match s.tail with
    | none => s
    | some t =>
      let a1 := s.arena.set t { nodeAt s.arena t with next := some n }
      let a2 := a1.set n { nodeAt a1 n with prev := some t }
      { s with arena := a2, tail := some n }

/-- `DoublyLinkedList.delete_song`, statement for statement; node fields are
re-read from the evolving arena exactly where Python re-reads the aliased
object. -/
def dllDeleteSong (s : Player) (i : Nat) : Player :=
  let n0 := nodeAt s.arena i
  let s1 :=
    match n0.prev with
    | some p => { s with arena := s.arena.set p { nodeAt s.arena p with next := n0.next } }
    | none => { s with head := n0.next }
  let n1 := nodeAt s1.arena i
  let s2 :=
    match n1.next with
    | some q => { s1 with arena := s1.arena.set q { nodeAt s1.arena q with prev := n1.prev } }
    | none => { s1 with tail := n1.prev }
  let n2 := nodeAt s2.arena i
  { s2 with arena := s2.arena.set i { n2 with next := none, prev := none } }

/-- `MusicPlayer.stop_music` (flag effects; the rest is UI). -/
def stopMusic (s : Player) : Player :=
  { s with is_playing := false, is_paused := false }

/-- `MusicPlayer.play_from_node`.  `ok` is the AudioEngine oracle: `true`
when `pygame.mixer.music.load/play` succeed, `false` when they raise
`pygame.error` (the except-branch). -/
def playFromNode (s : Player) (node : Option Nat) (ok : Bool) : Player :=
  match node with
  | none => s
  | some _ =>
    if ok then { s with is_playing := true, is_paused := false }
    else { s with is_playing := false, is_paused := false }

/-- One iteration of the loop of `MusicPlayer.add_songs` for one path. -/
def addOne (s : Player) (path : String) : Player :=
  let name := basename path
  if containsKey s.song_map name then s
  else
    let n := s.arena.length
    let s1 := { s with arena := s.arena ++ [⟨path, none, none⟩] }
    let s2 := dllAddSong s1 n
    { s2 with song_map := s2.song_map ++ [(name, n)] }

/-- `MusicPlayer.add_songs` over the chosen paths, in order. -/
def addSongs (s : Player) (paths : List String) : Player :=
  paths.foldl addOne s

/-- `MusicPlayer.delete_song`.  `sel` is the listbox selection (`none` models
the `IndexError` branch: no selection). -/
def deleteSongCmd (s : Player) (sel : Option String) : Player × Option Msg :=
  match sel with
  | none => (s, some .noSelection)
  | some name =>
    match mapGet s.song_map name with
    | none => (s, none)
    | some i =>
      let s1 :=
        if s.current_song_node = some i then
          { stopMusic s with current_song_node := none }
        else s
      let s2 := dllDeleteSong s1 i
      ({ s2 with song_map := eraseKey s2.song_map name }, none)

/-- `MusicPlayer.clear_playlist`. -/
def clearPlaylist (s : Player) : Player :=
  let s1 := stopMusic s
  { s1 with head := none, tail := none, song_map := [], history := [],
            upcoming := [], current_song_node := none }

/-- `MusicPlayer.play_music`.  `sel` is the listbox selection at click time
(`none` models the `IndexError` branch), `ok` the AudioEngine oracle. -/
def playMusic (s : Player) (sel : Option String) (ok : Bool) : Player × Option Msg :=
  match sel with
  | none =>
    if s.is_paused then ({ s with is_playing := true, is_paused := false }, none)
    else if s.is_playing then ({ s with is_playing := false, is_paused := true }, none)
    else (s, some .noSelection)
  | some name =>
    let selected := mapGet s.song_map name
    if s.current_song_node = selected then
      if s.is_paused then ({ s with is_playing := true, is_paused := false }, none)
      else if s.is_playing then ({ s with is_playing := false, is_paused := true }, none)
      else (playFromNode s selected ok, none)
    else
      let s1 :=
        match s.current_song_node with
        | some c => { s with history := s.history ++ [c] }
        | none => s
      let s2 := { s1 with current_song_node := selected }
      (playFromNode s2 selected ok, none)

/-- `MusicPlayer.next_song`. -/
def nextSong (s : Player) (ok : Bool) : Player × Option Msg :=
  match s.current_song_node with
  | none => (s, some .noSong)
  | some i =>
    match (nodeAt s.arena i).next with
    | none => (s, some .endOfPlaylist)
    | some j =>
      let s1 := { s with history := s.history ++ [i], current_song_node := some j }
      (playFromNode s1 (some j) ok, none)

/-- `MusicPlayer.prev_song` (Python `list.pop()` takes the last element). -/
def prevSong (s : Player) (ok : Bool) : Player × Option Msg :=
  match s.history.getLast? with
  | none => (s, some .noHistory)
  | some h =>
    let s1 := { s with history := s.history.dropLast, current_song_node := some h }
    (playFromNode s1 (some h) ok, none)

/-- `MusicPlayer.search_song` on the query text of the entry widget. -/
def searchSong (s : Player) (raw : String) : Player × SearchRes :=
  let query := pyStrip raw
  if query = "" then (s, .silent)
  else
    let exact := mapGet s.song_map query
    let found :=
      match exact with
      | some i => some i
      | none => firstSubstrMatch s.song_map query
    match found with
    | some i => (s, .found (basename (nodeAt s.arena i).data))
    | none => (s, .notFound)

/-- `check_music_event` when a `SONG_END_EVENT` is pending. -/
def trackEnded (s : Player) : Player :=
  { s with is_playing := false, is_paused := false }

/-- The user intents (plus the scheduler's end-of-track event).  `ok` fields
are the AudioEngine success oracle for the operations that load a song. -/
inductive Op where
  | addTracks (paths : List String)
  | deleteTrack (sel : Option String)
  | clearAll
  | playSelected (sel : Option String) (ok : Bool)
  | stopIntent
  | goNext (ok : Bool)
  | goPrev (ok : Bool)
  | searchFor (q : String)
  | songEnd
deriving DecidableEq

/-- State transition of one operation. -/
def applyOp (s : Player) : Op → Player
  | .addTracks ps => addSongs s ps
  | .deleteTrack sel => (deleteSongCmd s sel).1
  | .clearAll => clearPlaylist s
  | .playSelected sel ok => (playMusic s sel ok).1
  | .stopIntent => stopMusic s
  | .goNext ok => (nextSong s ok).1
  | .goPrev ok => (prevSong s ok).1
  | .searchFor q => (searchSong s q).1
  | .songEnd => trackEnded s

/-- Run a whole operation sequence from a state. -/
def runOps (s : Player) (ops : List Op) : Player :=
  ops.foldl applyOp s

/-- The states the player can actually be in. -/
inductive Reachable : Player → Prop
  | init : Reachable initPlayer
  | step (s : Player) (o : Op) : Reachable s → Reachable (applyOp s o)

/-- Fuel-bounded traversal of the linked list along `next` pointers. -/
def chainFrom (arena : List PNode) : Nat → Option Nat → List Nat
  | 0, _ => []
  | _ + 1, none => []
  | fuel + 1, some i => i :: chainFrom arena fuel (nodeAt arena i).next

/-- Arena indices currently linked in the `DoublyLinkedList`, head to tail. -/
def linkedIds (s : Player) : List Nat :=
  chainFrom s.arena s.arena.length s.head

/-- The display name of the track in slot `i` (as `add_songs` derives it). -/
def trackName (arena : List PNode) (i : Nat) : String :=
  basename (nodeAt arena i).data

/-- Names of the tracks currently linked in the list, head to tail. -/
def linkedNames (s : Player) : List String :=
  (linkedIds s).map (fun i => trackName s.arena i)

/-- Key list of the embedded dict, in insertion order. -/
def mapKeys (m : List (String × Nat)) : List String :=
  m.map Prod.fst

/-- A store holding the single track `a.mp3` (slot 0) next to an allocated
but unlinked node `x.mp3` (slot 1, `next = prev = none`). -/
def oneTrackStore : Player :=
  ⟨[⟨"a.mp3", none, none⟩, ⟨"x.mp3", none, none⟩], some 0, some 0,
   [("a.mp3", 0)], [], [], none, false, false⟩

/-- Add two tracks, play the first, play the second (first goes to history),
delete the first while the second is current, then navigate backwards:
`Previous` pops the stale history entry of the deleted track. -/
def staleHistoryOps : List Op :=
  [.addTracks ["a.mp3", "b.mp3"], .playSelected (some "a.mp3") true,
   .playSelected (some "b.mp3") true, .deleteTrack (some "a.mp3"), .goPrev true]

/-- The state reached by `staleHistoryOps`. -/
def staleHistoryState : Player := runOps initPlayer staleHistoryOps

/-- A player with the two tracks of the spec's search scenario. -/
def alphaBeta : Player := addSongs initPlayer ["alpha.mp3", "beta.mp3"]

/-- `chainSeg arena p c ns out`: starting a traversal with predecessor `p`
and cursor `c`, the list links exactly through the indices `ns` (each with a
back pointer to its predecessor) and leaves the traversal in state `out =
(final predecessor, final cursor)`. -/
def chainSeg (arena : List PNode) : Option Nat → Option Nat → List Nat →
    Option Nat × Option Nat → Prop
  | p, c, [], out => out = (p, c)
  | p, c, n :: rest, out =>
    c = some n ∧ n < arena.length ∧ (nodeAt arena n).prev = p ∧
      chainSeg arena (some n) (nodeAt arena n).next rest out

/-- An optional reference is null or a valid arena index. -/
def ptrOk (len : Nat) : Option Nat → Prop
  | none => True
  | some k => k < len

/-- The structural invariant of reachable player states: some index list
`ns` traverses the linked list from `head` and ends at `tail`; its indices
are distinct; `song_map` is exactly the tracks of `ns`, keyed by basename,
in list order; track names are pairwise distinct; the current-song
reference, every history entry, and every link field of every node are null
or in-range. -/
def Inv (s : Player) : Prop :=
  ∃ ns : List Nat,
    chainSeg s.arena none s.head ns (s.tail, none) ∧
    ns.Nodup ∧
    s.song_map = ns.map (fun i => (trackName s.arena i, i)) ∧
    (ns.map (fun i => trackName s.arena i)).Nodup ∧
    ptrOk s.arena.length s.current_song_node ∧
    (∀ i ∈ s.history, i < s.arena.length) ∧
    (∀ j, j < s.arena.length →
      ptrOk s.arena.length (nodeAt s.arena j).next ∧
      ptrOk s.arena.length (nodeAt s.arena j).prev)

lemma nodeAt_set_self {l : List PNode} {j : Nat} {x : PNode} (h : j < l.length) :
    nodeAt (l.set j x) j = x := by
  simp [nodeAt, List.getD, List.getElem?_set_self h]

lemma nodeAt_set_other {l : List PNode} {k j : Nat} {x : PNode} (h : k ≠ j) :
    nodeAt (l.set j x) k = nodeAt l k := by
  simp [nodeAt, List.getD, List.getElem?_set_ne (Ne.symm h)]

lemma nodeAt_append_lt {l l2 : List PNode} {k : Nat} (h : k < l.length) :
    nodeAt (l ++ l2) k = nodeAt l k := by
  simp [nodeAt, List.getD, List.getElem?_append_left h]

lemma nodeAt_append_self {l : List PNode} {x : PNode} :
    nodeAt (l ++ [x]) l.length = x := by
  simp [nodeAt, List.getD_append_right]

lemma chainFrom_none (arena : List PNode) (fuel : Nat) :
    chainFrom arena fuel none = [] := by
  cases fuel <;> rfl

/-- C3 counterexample: in `oneTrackStore` the slot-1 node is unlinked
(`prev = next = none`, and it is not reachable from the head, whose chain is
`[0]`), yet `DoublyLinkedList.delete_song` on it is not a no-op: it resets
`head` and `tail` from `some 0` to `none`, emptying the store. -/
theorem C3_counterexample :
    (nodeAt oneTrackStore.arena 1).prev = none ∧
    (nodeAt oneTrackStore.arena 1).next = none ∧
    linkedIds oneTrackStore = [0] ∧
    oneTrackStore.head = some 0 ∧
    oneTrackStore.tail = some 0 ∧
    (dllDeleteSong oneTrackStore 1).head = none ∧
    (dllDeleteSong oneTrackStore 1).tail = none := by
  decide

/-- `delete_song` on a node with no links rewrites head and tail from the
node's dangling pointers. -/
lemma dllDeleteSong_noLinks {s : Player} {i : Nat}
    (hp : (nodeAt s.arena i).prev = none) (hn : (nodeAt s.arena i).next = none) :
    dllDeleteSong s i =
      { s with head := none, tail := none,
               arena := s.arena.set i { nodeAt s.arena i with next := none, prev := none } } := by
  simp [dllDeleteSong, hp, hn]

/-- C3 amended: `delete_song` on a node whose `prev` and `next` are both
null (an unlinked node) always sets the store's `head` and `tail` to null —
it rewrites the endpoints from the node's dangling links instead of being a
no-op; only the node's own slot in the arena is (idly) rewritten. -/
theorem C3_unlinked_delete_clears_endpoints (s : Player) (i : Nat)
    (hp : (nodeAt s.arena i).prev = none) (hn : (nodeAt s.arena i).next = none) :
    dllDeleteSong s i =
      { s with head := none, tail := none,
               arena := s.arena.set i { nodeAt s.arena i with next := none, prev := none } } :=
  dllDeleteSong_noLinks hp hn

/-- C3 witness: the amended statement evaluated on `oneTrackStore`. -/
theorem C3_witness :
    dllDeleteSong oneTrackStore 1 =
      { oneTrackStore with
        head := none
        tail := none
        arena := oneTrackStore.arena.set 1 { nodeAt oneTrackStore.arena 1 with next := none, prev := none } } :=
  C3_unlinked_delete_clears_endpoints oneTrackStore 1 rfl rfl

/-- C4: `next_song` fails with the "No Song" warning (the spec's
`NoCurrentTrack`) when no song is current, fails with "End of Playlist" when
the current node has no successor — in both cases every field of the state
is untouched — and otherwise pushes the current node on the history stack,
moves to the successor and hands it to `play_from_node` (playing flag = the
engine result `ok`). -/
theorem C4_next_cases (s : Player) (ok : Bool) :
    (s.current_song_node = none → nextSong s ok = (s, some Msg.noSong)) ∧
    (∀ i, s.current_song_node = some i → (nodeAt s.arena i).next = none →
      nextSong s ok = (s, some Msg.endOfPlaylist)) ∧
    (∀ i j, s.current_song_node = some i → (nodeAt s.arena i).next = some j →
      nextSong s ok =
        ({ s with history := s.history ++ [i], current_song_node := some j,
                  is_playing := ok, is_paused := false }, none)) := by
  refine ⟨?_, ?_, ?_⟩
  · intro h; simp [nextSong, h]
  · intro i h1 h2; simp [nextSong, h1, h2]
  · intro i j h1 h2; cases ok <;> simp [nextSong, h1, h2, playFromNode]

/-- C4 witness: on the fresh player (no current song) `next_song` reports
"No Song" and changes nothing. -/
theorem C4_witness : nextSong initPlayer true = (initPlayer, some Msg.noSong) :=
  (C4_next_cases initPlayer true).1 rfl

/-- C5: `prev_song` fails with the "No History" message (the spec's
`EmptyHistory`) on an empty stack, leaving the state untouched; otherwise it
pops the top of the stack into the current song and hands it to
`play_from_node`, pushing nothing, so the stack shrinks by exactly one. -/
theorem C5_prev_cases (s : Player) (ok : Bool) :
    (s.history = [] → prevSong s ok = (s, some Msg.noHistory)) ∧
    (∀ hs h, s.history = hs ++ [h] →
      prevSong s ok =
        ({ s with history := hs, current_song_node := some h,
                  is_playing := ok, is_paused := false }, none) ∧
      (prevSong s ok).1.history.length + 1 = s.history.length) := by
  constructor
  · intro h; simp [prevSong, h]
  · intro hs h hh
    have h1 : s.history.getLast? = some h := by rw [hh]; exact List.getLast?_concat _
    have h2 : s.history.dropLast = hs := by rw [hh]; exact List.dropLast_concat
    have h3 : prevSong s ok =
        ({ s with history := hs, current_song_node := some h,
                  is_playing := ok, is_paused := false }, none) := by
      cases ok <;> simp [prevSong, h1, h2, playFromNode]
    refine ⟨h3, ?_⟩
    rw [h3, hh]
    simp

/-- C5 witness: popping the one-entry history stack of `staleHistoryState`'s
predecessor state (reconstructed directly) moves that entry into the current
song and shrinks the stack to zero. -/
theorem C5_witness :
    prevSong { initPlayer with history := [0] } true =
      ({ initPlayer with
          history := []
          current_song_node := some 0
          is_playing := true
          is_paused := false }, none) :=
  ((C5_prev_cases { initPlayer with history := [0] } true).2 [] 0 rfl).1

/-- C7: `play_from_node` on a song node leaves the current-song reference
untouched in both outcomes; on a `pygame.error` (engine failure) it clears
both flags — mode `Stopped` — and on success it sets mode `Playing`. -/
theorem C7_play_from_node (s : Player) (i : Nat) :
    playFromNode s (some i) true = { s with is_playing := true, is_paused := false } ∧
    playFromNode s (some i) false = { s with is_playing := false, is_paused := false } ∧
    (playFromNode s (some i) false).current_song_node = s.current_song_node ∧
    mode (playFromNode s (some i) false) = Mode.stopped ∧
    mode (playFromNode s (some i) true) = Mode.playing := by
  refine ⟨rfl, rfl, rfl, rfl, rfl⟩

/-- C8: whatever the starting state and whatever paths are added,
`add_songs` followed by `clear_playlist` leaves the linked list, the name
map and the history stack empty, no current song, and mode `Stopped`. -/
theorem C8_add_then_clear (s : Player) (paths : List String) :
    (clearPlaylist (addSongs s paths)).head = none ∧
    (clearPlaylist (addSongs s paths)).tail = none ∧
    linkedIds (clearPlaylist (addSongs s paths)) = [] ∧
    (clearPlaylist (addSongs s paths)).song_map = [] ∧
    (clearPlaylist (addSongs s paths)).history = [] ∧
    (clearPlaylist (addSongs s paths)).current_song_node = none ∧
    mode (clearPlaylist (addSongs s paths)) = Mode.stopped := by
  refine ⟨rfl, rfl, ?_, rfl, rfl, rfl, rfl⟩
  exact chainFrom_none _ _

lemma set_append_self {l : List PNode} {x y : PNode} :
    (l ++ [x]).set l.length y = l ++ [y] := by
  induction l with
  | nil => rfl
  | cons c t ih => simp only [List.cons_append, List.length_cons, List.set_cons_succ, ih]

/-- `add_songs` skips a path whose basename is already a key. -/
lemma addOne_skip {s : Player} {p : String}
    (h : containsKey s.song_map (basename p) = true) : addOne s p = s := by
  simp [addOne, h]

/-- `add_songs` on an empty list: the fresh node becomes head and tail. -/
lemma addOne_grow_empty {s : Player} {p : String}
    (hc : containsKey s.song_map (basename p) = false) (hh : s.head = none) :
    addOne s p = { s with
      arena := s.arena ++ [⟨p, none, none⟩]
      head := some s.arena.length
      tail := some s.arena.length
      song_map := s.song_map ++ [(basename p, s.arena.length)] } := by
  simp [addOne, hc, dllAddSong, hh]

/-- `add_songs` on a non-empty list: the fresh node is linked after the old
tail and becomes the new tail. -/
lemma addOne_grow {s : Player} {p : String} {h0 t : Nat}
    (hc : containsKey s.song_map (basename p) = false) (hh : s.head = some h0)
    (ht : s.tail = some t) (hlt : t < s.arena.length) :
    addOne s p = { s with
      arena := (s.arena.set t { nodeAt s.arena t with next := some s.arena.length }) ++ [⟨p, none, some t⟩]
      tail := some s.arena.length
      song_map := s.song_map ++ [(basename p, s.arena.length)] } := by
  have e1 : nodeAt (s.arena ++ [(⟨p, none, none⟩ : PNode)]) t = nodeAt s.arena t :=
    nodeAt_append_lt hlt
  have e2 : (s.arena ++ [(⟨p, none, none⟩ : PNode)]).set t
        { nodeAt s.arena t with next := some s.arena.length } =
      s.arena.set t { nodeAt s.arena t with next := some s.arena.length } ++ [⟨p, none, none⟩] :=
    List.set_append_left _ _ hlt
  have e3 : nodeAt (s.arena.set t { nodeAt s.arena t with next := some s.arena.length } ++
        [(⟨p, none, none⟩ : PNode)]) s.arena.length = ⟨p, none, none⟩ := by
    have := nodeAt_append_self
      (l := s.arena.set t { nodeAt s.arena t with next := some s.arena.length })
      (x := (⟨p, none, none⟩ : PNode))
    rwa [List.length_set] at this
  have e4 : (s.arena.set t { nodeAt s.arena t with next := some s.arena.length } ++
        [(⟨p, none, none⟩ : PNode)]).set s.arena.length ⟨p, none, some t⟩ =
      s.arena.set t { nodeAt s.arena t with next := some s.arena.length } ++ [⟨p, none, some t⟩] := by
    have := set_append_self
      (l := s.arena.set t { nodeAt s.arena t with next := some s.arena.length })
      (x := (⟨p, none, none⟩ : PNode)) (y := (⟨p, none, some t⟩ : PNode))
    rwa [List.length_set] at this
  simp [addOne, hc, dllAddSong, hh, ht, e1, e2, e3, e4]

/-- C6: `add_songs` handles its paths in order; a path whose basename is
already a key of `song_map` changes nothing and raises no message; a fresh
name allocates a node for the path, links it at the tail of the list (as new
head and tail when the list was empty, after the old tail otherwise) and
appends the name to `song_map`. -/
theorem C6_add_cases (s : Player) (p : String) (ps : List String) :
    (addSongs s (p :: ps) = addSongs (addOne s p) ps) ∧
    (containsKey s.song_map (basename p) = true → addOne s p = s) ∧
    (containsKey s.song_map (basename p) = false → s.head = none →
      addOne s p = { s with
        arena := s.arena ++ [⟨p, none, none⟩]
        head := some s.arena.length
        tail := some s.arena.length
        song_map := s.song_map ++ [(basename p, s.arena.length)] }) ∧
    (∀ h0 t, containsKey s.song_map (basename p) = false → s.head = some h0 →
      s.tail = some t → t < s.arena.length →
      addOne s p = { s with
        arena := (s.arena.set t { nodeAt s.arena t with next := some s.arena.length }) ++ [⟨p, none, some t⟩]
        tail := some s.arena.length
        song_map := s.song_map ++ [(basename p, s.arena.length)] }) := by
  exact ⟨rfl, fun h => addOne_skip h, fun hc hh => addOne_grow_empty hc hh,
    fun h0 t hc hh ht hlt => addOne_grow hc hh ht hlt⟩

/-- C6 witness: adding `songs/a.mp3` to the empty player appends the node,
makes it head and tail, and records `a.mp3` in the map; adding it again is
the identity. -/
theorem C6_witness :
    addOne initPlayer "songs/a.mp3" = { initPlayer with
      arena := initPlayer.arena ++ [⟨"songs/a.mp3", none, none⟩]
      head := some initPlayer.arena.length
      tail := some initPlayer.arena.length
      song_map := initPlayer.song_map ++ [(basename "songs/a.mp3", initPlayer.arena.length)] } :=
  (C6_add_cases initPlayer "songs/a.mp3" []).2.2.1 (by decide) rfl

/-- `search_song` never mutates the player state. -/
lemma searchSong_fst (s : Player) (raw : String) : (searchSong s raw).1 = s := by
  unfold searchSong
  by_cases h : pyStrip raw = ""
  · simp [h]
  · simp only [h, if_false]
    cases hm : mapGet s.song_map (pyStrip raw) <;>
      [cases hf : firstSubstrMatch s.song_map (pyStrip raw) <;> simp [hm, hf]; simp [hm]]

lemma firstSubstrMatch_split (m1 m2 : List (String × Nat)) (nm : String) (i : Nat) (q : String)
    (hno : ∀ pr ∈ m1, strContainsCI pr.1 q = false) (hyes : strContainsCI nm q = true) :
    firstSubstrMatch (m1 ++ (nm, i) :: m2) q = some i := by
  induction m1 with
  | nil => simp [firstSubstrMatch, hyes]
  | cons a t ih =>
    have ha := hno a (List.mem_cons_self a t)
    simp only [List.cons_append, firstSubstrMatch, ha, Bool.false_eq_true, if_false]
    exact ih (fun pr hpr => hno pr (List.mem_cons_of_mem a hpr))

lemma firstSubstrMatch_nil (m : List (String × Nat)) (q : String)
    (h : ∀ pr ∈ m, strContainsCI pr.1 q = false) :
    firstSubstrMatch m q = none := by
  induction m with
  | nil => rfl
  | cons a t ih =>
    have ha := h a (List.mem_cons_self a t)
    simp only [firstSubstrMatch, ha, Bool.false_eq_true, if_false]
    exact ih (fun pr hpr => h pr (List.mem_cons_of_mem a hpr))

/-- C9 counterexample to the claim as stated: against the names
`alpha.mp3`, `beta.mp3` the query `""` is not a key of the map and is a
(trivial) case-insensitive substring of the first entry `alpha.mp3`, so the
claim demands `Found "alpha.mp3"`; but `search_song` returns early on an
empty stripped query with no result box at all. -/
theorem C9_counterexample :
    mapGet alphaBeta.song_map "" = none ∧
    alphaBeta.song_map = [("alpha.mp3", 0), ("beta.mp3", 1)] ∧
    strContainsCI "alpha.mp3" "" = true ∧
    (searchSong alphaBeta "").2 = SearchRes.silent ∧
    (searchSong alphaBeta "").2 ≠ SearchRes.found "alpha.mp3" := by
  decide

/-- C9 amended: for a query whose stripped text is non-empty, `search_song`
returns the exact-name match if the stripped query is a key, otherwise the
first map entry (in insertion order) whose name contains the stripped query
case-insensitively, otherwise the "Not Found" box; a query that strips to
empty returns silently with no result; in every case the player state is
returned unchanged. -/
theorem C9_search_cases (s : Player) (raw : String) :
    ((searchSong s raw).1 = s) ∧
    (pyStrip raw = "" → (searchSong s raw).2 = SearchRes.silent) ∧
    (∀ i, pyStrip raw ≠ "" → mapGet s.song_map (pyStrip raw) = some i →
      (searchSong s raw).2 = SearchRes.found (trackName s.arena i)) ∧
    (∀ m1 nm i m2, pyStrip raw ≠ "" → mapGet s.song_map (pyStrip raw) = none →
      s.song_map = m1 ++ (nm, i) :: m2 →
      (∀ pr ∈ m1, strContainsCI pr.1 (pyStrip raw) = false) →
      strContainsCI nm (pyStrip raw) = true →
      (searchSong s raw).2 = SearchRes.found (trackName s.arena i)) ∧
    (pyStrip raw ≠ "" → mapGet s.song_map (pyStrip raw) = none →
      (∀ pr ∈ s.song_map, strContainsCI pr.1 (pyStrip raw) = false) →
      (searchSong s raw).2 = SearchRes.notFound) := by
  refine ⟨searchSong_fst s raw, ?_, ?_, ?_, ?_⟩
  · intro h; simp [searchSong, h]
  · intro i h hm; simp [searchSong, h, hm, trackName]
  · intro m1 nm i m2 h hm hsplit hno hyes
    have hf : firstSubstrMatch s.song_map (pyStrip raw) = some i := by
      rw [hsplit]; exact firstSubstrMatch_split m1 m2 nm i _ hno hyes
    simp [searchSong, h, hm, hf, trackName]
  · intro h hm hall
    have hf : firstSubstrMatch s.song_map (pyStrip raw) = none :=
      firstSubstrMatch_nil _ _ hall
    simp [searchSong, h, hm, hf]

/-- C9 witness: searching `" BETA "` among `alpha.mp3`, `beta.mp3` strips
the blanks, misses exactly, and finds `beta.mp3` as the first
case-insensitive substring match. -/
theorem C9_witness :
    (searchSong alphaBeta " BETA ").2 = SearchRes.found (trackName alphaBeta.arena 1) :=
  (C9_search_cases alphaBeta " BETA ").2.2.2.1 [("alpha.mp3", 0)] "beta.mp3" 1 []
    (by decide) (by decide) (by decide) (by decide) (by decide)

lemma chainSeg_append {arena : List PNode} {xs ys : List Nat} {p c : Option Nat}
    {out : Option Nat × Option Nat} :
    chainSeg arena p c (xs ++ ys) out ↔
      ∃ m : Option Nat × Option Nat,
        chainSeg arena p c xs m ∧ chainSeg arena m.1 m.2 ys out := by
  induction xs generalizing p c with
  | nil =>
    constructor
    · intro h; exact ⟨(p, c), rfl, h⟩
    · rintro ⟨m, hm, h⟩
      have : m = (p, c) := hm
      rw [this] at h; exact h
  | cons n t ih =>
    constructor
    · rintro ⟨h1, h2, h3, h4⟩
      obtain ⟨m, hm1, hm2⟩ := ih.1 h4
      exact ⟨m, ⟨h1, h2, h3, hm1⟩, hm2⟩
    · rintro ⟨m, ⟨h1, h2, h3, hm1⟩, hm2⟩
      exact ⟨h1, h2, h3, ih.2 ⟨m, hm1, hm2⟩⟩

lemma chainSeg_congr {arena arena2 : List PNode} {ns : List Nat} {p c : Option Nat}
    {out : Option Nat × Option Nat}
    (hlen : arena.length ≤ arena2.length)
    (hsame : ∀ j ∈ ns, nodeAt arena2 j = nodeAt arena j) :
    chainSeg arena p c ns out → chainSeg arena2 p c ns out := by
  induction ns generalizing p c with
  | nil => intro h; exact h
  | cons n t ih =>
    rintro ⟨h1, h2, h3, h4⟩
    have hn := hsame n (List.mem_cons_self n t)
    refine ⟨h1, lt_of_lt_of_le h2 hlen, by rw [hn]; exact h3, ?_⟩
    rw [hn]
    exact ih (fun j hj => hsame j (List.mem_cons_of_mem n hj)) h4

lemma chainSeg_mem_lt {arena : List PNode} {ns : List Nat} :
    ∀ {p c : Option Nat} {out : Option Nat × Option Nat},
      chainSeg arena p c ns out → ∀ n ∈ ns, n < arena.length := by
  induction ns with
  | nil => intro p c out h n hn; cases hn
  | cons a t ih =>
    intro p c out h n hn
    obtain ⟨h1, h2, h3, h4⟩ := h
    rcases List.mem_cons.1 hn with rfl | hn2
    · exact h2
    · exact ih h4 n hn2

lemma chainSeg_out {arena : List PNode} {ns : List Nat} :
    ∀ {p c po co : Option Nat}, chainSeg arena p c ns (po, co) →
    (ns = [] ∧ po = p ∧ co = c) ∨
      (∃ L, L ∈ ns ∧ ns.getLast? = some L ∧ po = some L ∧ co = (nodeAt arena L).next) := by
  induction ns with
  | nil =>
    intro p c po co h
    have hpc : (po, co) = (p, c) := h
    simp only [Prod.mk.injEq] at hpc
    exact Or.inl ⟨rfl, hpc.1, hpc.2⟩
  | cons n t ih =>
    intro p c po co h
    obtain ⟨h1, h2, h3, h4⟩ := h
    rcases ih h4 with ⟨rfl, hpo, hco⟩ | ⟨L, hL, hlast, hpo, hco⟩
    · exact Or.inr ⟨n, List.mem_cons_self n _, rfl, hpo, hco⟩
    · refine Or.inr ⟨L, List.mem_cons_of_mem n hL, ?_, hpo, hco⟩
      cases t with
      | nil => cases hL
      | cons b t2 => rw [List.getLast?_cons_cons]; exact hlast

lemma chainFrom_eq {arena : List PNode} {ns : List Nat} :
    ∀ {p c po : Option Nat} {fuel : Nat},
      chainSeg arena p c ns (po, none) → ns.length ≤ fuel →
      chainFrom arena fuel c = ns := by
  induction ns with
  | nil =>
    intro p c po fuel h hfuel
    have hpc : ((po, none) : Option Nat × Option Nat) = (p, c) := h
    simp only [Prod.mk.injEq] at hpc
    rw [← hpc.2]
    exact chainFrom_none arena fuel
  | cons n t ih =>
    intro p c po fuel h hfuel
    obtain ⟨h1, h2, h3, h4⟩ := h
    cases fuel with
    | zero => exact absurd hfuel (by simp)
    | succ f =>
      rw [h1]
      show n :: chainFrom arena f (nodeAt arena n).next = n :: t
      rw [ih h4 (Nat.le_of_succ_le_succ hfuel)]

lemma nodup_lt_length_le {ns : List Nat} {L : Nat}
    (hd : ns.Nodup) (hlt : ∀ n ∈ ns, n < L) : ns.length ≤ L := by
  have h1 : ns.toFinset.card = ns.length := List.toFinset_card_of_nodup hd
  have h2 : ns.toFinset ⊆ Finset.range L := by
    intro x hx
    exact Finset.mem_range.2 (hlt x (List.mem_toFinset.1 hx))
  have := Finset.card_le_card h2
  rw [h1, Finset.card_range] at this
  exact this

/-- Under the structural invariant the fuel-bounded traversal recovers the
chain exactly. -/
lemma linkedIds_eq {s : Player} {ns : List Nat}
    (hseg : chainSeg s.arena none s.head ns (s.tail, none)) (hnd : ns.Nodup) :
    linkedIds s = ns :=
  chainFrom_eq hseg (nodup_lt_length_le hnd (chainSeg_mem_lt hseg))

lemma ptrOk_mono {l1 l2 : Nat} (h : l1 ≤ l2) {o : Option Nat} : ptrOk l1 o → ptrOk l2 o := by
  cases o with
  | none => intro _; trivial
  | some k => intro hk; exact lt_of_lt_of_le hk h

lemma containsKey_false {m : List (String × Nat)} {k : String}
    (h : containsKey m k = false) : ∀ pr ∈ m, pr.1 ≠ k := by
  intro pr hpr
  simp only [containsKey, List.any_eq_false, decide_eq_true_eq] at h
  exact h pr hpr

lemma mapGet_mem {m : List (String × Nat)} {k : String} {i : Nat} :
    mapGet m k = some i → (k, i) ∈ m := by
  induction m with
  | nil => intro h; cases h
  | cons a rest ih =>
    intro h
    obtain ⟨nm, j⟩ := a
    by_cases hk : nm = k
    · rw [mapGet, if_pos hk] at h
      cases h
      rw [hk]
      exact List.mem_cons_self _ _
    · rw [mapGet, if_neg hk] at h
      exact List.mem_cons_of_mem _ (ih h)

/-- The invariant holds in the initial state. -/
lemma inv_init : Inv initPlayer := by
  refine ⟨[], rfl, List.nodup_nil, rfl, List.nodup_nil, trivial, ?_, ?_⟩
  · intro i hi; cases hi
  · intro j hj; cases hj

/-- `add_songs` preserves the invariant, one path at a time. -/
lemma inv_addOne {s : Player} {p : String} (h : Inv s) : Inv (addOne s p) := by
  obtain ⟨ns, hseg, hnd, hmap, hnames, hcur, hhist, hptr⟩ := h
  cases hc : containsKey s.song_map (basename p) with
  | true =>
    rw [addOne_skip hc]
    exact ⟨ns, hseg, hnd, hmap, hnames, hcur, hhist, hptr⟩
  | false =>
    have hkeys : ∀ j ∈ ns, trackName s.arena j ≠ basename p := by
      intro j hj
      exact containsKey_false hc (trackName s.arena j, j)
        (by rw [hmap]; exact List.mem_map_of_mem _ hj)
    rcases List.eq_nil_or_concat ns with rfl | ⟨ns0, L, hcat⟩
    on_goal 2 => rw [List.concat_eq_append] at hcat; subst hcat
    · -- empty playlist: the chain was empty, head and tail were none
      have hpc : ((s.tail, none) : Option Nat × Option Nat) = (none, s.head) := hseg
      simp only [Prod.mk.injEq] at hpc
      rw [addOne_grow_empty hc hpc.2.symm]
      have hmap0 : s.song_map = [] := by rw [hmap]; rfl
      have hn2 : nodeAt (s.arena ++ [(⟨p, none, none⟩ : PNode)]) s.arena.length =
          ⟨p, none, none⟩ := nodeAt_append_self
      refine ⟨[s.arena.length], ?_, List.nodup_singleton _, ?_, List.nodup_singleton _,
        ?_, ?_, ?_⟩
      · refine ⟨rfl, by simp, by rw [hn2], ?_⟩
        rw [hn2]
        rfl
      · rw [hmap0]
        simp only [List.map_cons, List.map_nil, List.nil_append]
        rw [trackName, hn2]
      · exact ptrOk_mono (by simp) hcur
      · intro i hi
        have := hhist i hi
        simp only [List.length_append, List.length_cons, List.length_nil]
        omega
      · intro j hj
        simp only [List.length_append, List.length_cons, List.length_nil] at hj
        by_cases hjl : j < s.arena.length
        · rw [nodeAt_append_lt hjl]
          exact ⟨ptrOk_mono (by simp) (hptr j hjl).1, ptrOk_mono (by simp) (hptr j hjl).2⟩
        · have : j = s.arena.length := by omega
          rw [this, hn2]
          exact ⟨trivial, trivial⟩
    · -- non-empty playlist: link the new node after the old tail L
      obtain ⟨m, hm0, hmL⟩ := chainSeg_append.1 hseg
      obtain ⟨e1, e2, e3, e4⟩ := hmL
      have e5 : ((s.tail, none) : Option Nat × Option Nat) = (some L, (nodeAt s.arena L).next) := e4
      simp only [Prod.mk.injEq] at e5
      have hLmem : L ∈ ns0 ++ [L] := List.mem_append_right _ (List.mem_cons_self _ _)
      have hLlt : L < s.arena.length := chainSeg_mem_lt hseg L hLmem
      have hhead : ∃ h0, s.head = some h0 := by
        cases ns0 with
        | nil =>
          have hm : m = (none, s.head) := hm0
          refine ⟨L, ?_⟩
          rw [← e1, hm]
        | cons a t =>
          obtain ⟨ha, _⟩ := hm0
          exact ⟨a, ha⟩
      obtain ⟨h0, hh⟩ := hhead
      set n := s.arena.length with hn
      set nd : PNode := { nodeAt s.arena L with next := some n } with hnd2
      set arena2 : List PNode := s.arena.set L nd ++ [⟨p, none, some L⟩] with ha2
      have hlen2 : arena2.length = s.arena.length + 1 := by
        rw [ha2]; simp
      have hat_L : nodeAt arena2 L = nd := by
        rw [ha2, nodeAt_append_lt (by rw [List.length_set]; exact hLlt)]
        exact nodeAt_set_self hLlt
      have hat_n : nodeAt arena2 n = ⟨p, none, some L⟩ := by
        rw [ha2]
        have := nodeAt_append_self (l := s.arena.set L nd) (x := (⟨p, none, some L⟩ : PNode))
        rwa [List.length_set] at this
      have hat_other : ∀ j, j ≠ L → j < s.arena.length → nodeAt arena2 j = nodeAt s.arena j := by
        intro j hjL hjlt
        rw [ha2, nodeAt_append_lt (by rw [List.length_set]; exact hjlt)]
        exact nodeAt_set_other hjL
      have hLnotin : L ∉ ns0 := by
        have := List.nodup_append.1 hnd
        intro hmem
        exact this.2.2 hmem (List.mem_cons_self _ _)
      have hns0lt : ∀ j ∈ ns0, j < s.arena.length := by
        intro j hj
        exact chainSeg_mem_lt hseg j (List.mem_append_left _ hj)
      have hns0same : ∀ j ∈ ns0, nodeAt arena2 j = nodeAt s.arena j := by
        intro j hj
        exact hat_other j (fun he => hLnotin (he ▸ hj)) (hns0lt j hj)
      have hdata : ∀ j ∈ ns0 ++ [L], trackName arena2 j = trackName s.arena j := by
        intro j hj
        rcases List.mem_append.1 hj with hj0 | hjL
        · rw [trackName, trackName, hns0same j hj0]
        · have : j = L := by cases hjL with | head => rfl | tail _ hx => cases hx
          rw [this, trackName, trackName, hat_L]
      have hchain2 : chainSeg arena2 none s.head ((ns0 ++ [L]) ++ [n]) (some n, none) := by
        apply chainSeg_append.2
        refine ⟨(some L, some n), ?_, ?_⟩
        · apply chainSeg_append.2
          refine ⟨m, chainSeg_congr (by omega) hns0same hm0, ?_⟩
          refine ⟨e1, by omega, ?_, ?_⟩
          · rw [hat_L]; exact e3
          · rw [hat_L]; exact rfl
        · refine ⟨rfl, by omega, ?_, ?_⟩
          · rw [hat_n]
          · rw [hat_n]; exact rfl
      have hnodup2 : (((ns0 ++ [L]) ++ [n]) : List Nat).Nodup := by
        have hn_notin : n ∉ ns0 ++ [L] := by
          intro hmem
          exact absurd (chainSeg_mem_lt hseg n hmem) (by omega)
        rw [List.nodup_append]
        exact ⟨hnd, List.nodup_singleton _, by
          intro x hx hx2
          have : x = n := by cases hx2 with | head => rfl | tail _ hx3 => cases hx3
          exact hn_notin (this ▸ hx)⟩
      have hname_n : trackName arena2 n = basename p := by
        rw [trackName, hat_n]
      have hmapeq : (ns0 ++ [L]).map (fun i => ((trackName arena2 i, i) : String × Nat)) =
          (ns0 ++ [L]).map (fun i => (trackName s.arena i, i)) :=
        List.map_congr_left (fun j hj => by rw [hdata j hj])
      have hmap2 : s.song_map ++ [(basename p, n)] =
          ((ns0 ++ [L]) ++ [n]).map (fun i => (trackName arena2 i, i)) := by
        rw [List.map_append, hmapeq, hmap]
        simp [hname_n]
      have hnames2 : (((ns0 ++ [L]) ++ [n]).map (fun i => trackName arena2 i)).Nodup := by
        rw [List.map_append, List.nodup_append]
        refine ⟨?_, List.nodup_singleton _, ?_⟩
        · have heq : (ns0 ++ [L]).map (fun i => trackName arena2 i) =
              (ns0 ++ [L]).map (fun i => trackName s.arena i) :=
            List.map_congr_left (fun j hj => hdata j hj)
          rw [heq]; exact hnames
        · intro x hx hx2
          simp only [List.map_cons, List.map_nil, hname_n, List.mem_cons,
            List.not_mem_nil, or_false] at hx2
          obtain ⟨j, hj, hjx⟩ := List.mem_map.1 hx
          rw [← hjx, hdata j hj] at hx2
          exact hkeys j hj hx2
      have hcur2 : ptrOk arena2.length s.current_song_node := ptrOk_mono (by omega) hcur
      have hhist2 : ∀ i ∈ s.history, i < arena2.length := by
        intro i hi
        have := hhist i hi
        omega
      have hptr2 : ∀ j, j < arena2.length →
          ptrOk arena2.length (nodeAt arena2 j).next ∧
          ptrOk arena2.length (nodeAt arena2 j).prev := by
        intro j hj
        rw [hlen2] at hj
        by_cases hjn : j = n
        · rw [hjn, hat_n]
          refine ⟨trivial, ?_⟩
          show L < arena2.length
          omega
        · have hjlt : j < s.arena.length := by omega
          by_cases hjL : j = L
          · rw [hjL, hat_L]
            refine ⟨?_, ?_⟩
            · show n < arena2.length
              omega
            · exact ptrOk_mono (by omega) (hptr L hLlt).2
          · rw [hat_other j hjL hjlt]
            exact ⟨ptrOk_mono (by omega) (hptr j hjlt).1,
              ptrOk_mono (by omega) (hptr j hjlt).2⟩
      rw [addOne_grow hc hh e5.1 hLlt]
      exact ⟨(ns0 ++ [L]) ++ [n], hchain2, hnodup2, hmap2, hnames2, hcur2, hhist2, hptr2⟩

/-- `add_songs` preserves the invariant. -/
lemma inv_addSongs {s : Player} {paths : List String} (h : Inv s) : Inv (addSongs s paths) := by
  induction paths generalizing s with
  | nil => exact h
  | cons p ps ih => exact ih (inv_addOne h)

/-- Flag changes do not affect the structural invariant. -/
lemma inv_set_flags {s : Player} (b1 b2 : Bool) (h : Inv s) :
    Inv { s with is_playing := b1, is_paused := b2 } := by
  obtain ⟨ns, h1, h2, h3, h4, h5, h6, h7⟩ := h
  exact ⟨ns, h1, h2, h3, h4, h5, h6, h7⟩

/-- `stop_music` preserves the invariant. -/
lemma inv_stopMusic {s : Player} (h : Inv s) : Inv (stopMusic s) :=
  inv_set_flags false false h

/-- The end-of-track event preserves the invariant. -/
lemma inv_trackEnded {s : Player} (h : Inv s) : Inv (trackEnded s) :=
  inv_set_flags false false h

/-- `search_song` preserves the invariant (it returns the state unchanged). -/
lemma inv_searchSong {s : Player} {q : String} (h : Inv s) : Inv (searchSong s q).1 := by
  rw [searchSong_fst]
  exact h

/-- `play_from_node` preserves the invariant. -/
lemma inv_playFromNode {s : Player} {node : Option Nat} {ok : Bool} (h : Inv s) :
    Inv (playFromNode s node ok) := by
  cases node with
  | none => exact h
  | some i =>
    cases ok with
    | true => exact inv_set_flags true false h
    | false => exact inv_set_flags false false h

/-- `clear_playlist` preserves the invariant (empty chain, same arena). -/
lemma inv_clearPlaylist {s : Player} (h : Inv s) : Inv (clearPlaylist s) := by
  obtain ⟨ns, hseg, hnd, hmap, hnames, hcur, hhist, hptr⟩ := h
  refine ⟨[], rfl, List.nodup_nil, rfl, List.nodup_nil, trivial, ?_, hptr⟩
  intro i hi
  cases hi

/-- An index delivered by `song_map.get` belongs to the chain. -/
lemma mapGet_chain_mem {s : Player} {ns : List Nat} {k : String} {i : Nat}
    (hmap : s.song_map = ns.map (fun i => (trackName s.arena i, i)))
    (hg : mapGet s.song_map k = some i) : i ∈ ns ∧ trackName s.arena i = k := by
  have hmem := mapGet_mem hg
  rw [hmap] at hmem
  obtain ⟨j, hj, hje⟩ := List.mem_map.1 hmem
  obtain ⟨hje1, hje2⟩ := Prod.mk.injEq .. ▸ hje
  exact ⟨hje2 ▸ hj, hje2 ▸ hje1⟩

/-- `next_song` preserves the invariant. -/
lemma inv_nextSong {s : Player} {ok : Bool} (h : Inv s) : Inv (nextSong s ok).1 := by
  obtain ⟨ns, hseg, hnd, hmap, hnames, hcur, hhist, hptr⟩ := h
  cases hc : s.current_song_node with
  | none =>
    simp only [nextSong, hc]
    exact ⟨ns, hseg, hnd, hmap, hnames, hc ▸ hcur, hhist, hptr⟩
  | some i =>
    have hilt : i < s.arena.length := by rw [hc] at hcur; exact hcur
    cases hn : (nodeAt s.arena i).next with
    | none =>
      simp only [nextSong, hc, hn]
      exact ⟨ns, hseg, hnd, hmap, hnames, hc ▸ hcur, hhist, hptr⟩
    | some j =>
      have hjlt : j < s.arena.length := by
        have := (hptr i hilt).1
        rw [hn] at this
        exact this
      simp only [nextSong, hc, hn]
      apply inv_playFromNode
      refine ⟨ns, hseg, hnd, hmap, hnames, hjlt, ?_, hptr⟩
      intro x hx
      rcases List.mem_append.1 hx with hx1 | hx2
      · exact hhist x hx1
      · have : x = i := by cases hx2 with | head => rfl | tail _ hx3 => cases hx3
        rw [this]
        exact hilt

/-- `prev_song` preserves the invariant. -/
lemma inv_prevSong {s : Player} {ok : Bool} (h : Inv s) : Inv (prevSong s ok).1 := by
  obtain ⟨ns, hseg, hnd, hmap, hnames, hcur, hhist, hptr⟩ := h
  cases hl : s.history.getLast? with
  | none =>
    simp only [prevSong, hl]
    exact ⟨ns, hseg, hnd, hmap, hnames, hcur, hhist, hptr⟩
  | some hd =>
    have hdmem : hd ∈ s.history := List.mem_of_mem_getLast? hl
    have hdlt : hd < s.arena.length := hhist hd hdmem
    simp only [prevSong, hl]
    apply inv_playFromNode
    refine ⟨ns, hseg, hnd, hmap, hnames, hdlt, ?_, hptr⟩
    intro x hx
    exact hhist x (List.dropLast_subset _ hx)

lemma eraseKey_append {l1 l2 : List (String × Nat)} {k : String} {v : Nat}
    (h : ∀ pr ∈ l1, pr.1 ≠ k) : eraseKey (l1 ++ (k, v) :: l2) k = l1 ++ l2 := by
  induction l1 with
  | nil => simp [eraseKey]
  | cons a t ih =>
    have ha := h a (List.mem_cons_self a t)
    simp only [List.cons_append, eraseKey, if_neg ha]
    show a :: eraseKey (t ++ (k, v) :: l2) k = a :: (t ++ l2)
    rw [ih (fun pr hpr => h pr (List.mem_cons_of_mem a hpr))]

lemma hptr_set {arena : List PNode} {k : Nat} {nd : PNode} (hk : k < arena.length)
    (hold : ∀ j, j < arena.length →
      ptrOk arena.length (nodeAt arena j).next ∧ ptrOk arena.length (nodeAt arena j).prev)
    (hn1 : ptrOk arena.length nd.next) (hn2 : ptrOk arena.length nd.prev) :
    ∀ j, j < (arena.set k nd).length →
      ptrOk (arena.set k nd).length (nodeAt (arena.set k nd) j).next ∧
      ptrOk (arena.set k nd).length (nodeAt (arena.set k nd) j).prev := by
  intro j hj
  rw [List.length_set] at hj ⊢
  by_cases hjk : j = k
  · subst hjk
    rw [nodeAt_set_self hk]
    exact ⟨hn1, hn2⟩
  · rw [nodeAt_set_other hjk]
    exact hold j hj

/-- `play_music` preserves the invariant. -/
lemma inv_playMusic {s : Player} {sel : Option String} {ok : Bool} (h : Inv s) :
    Inv (playMusic s sel ok).1 := by
  obtain ⟨ns, hseg, hnd, hmap, hnames, hcur, hhist, hptr⟩ := h
  have hinv : Inv s := ⟨ns, hseg, hnd, hmap, hnames, hcur, hhist, hptr⟩
  cases sel with
  | none =>
    cases hp : s.is_paused with
    | true =>
      simp only [playMusic, hp]
      exact inv_set_flags true false hinv
    | false =>
      cases hpl : s.is_playing with
      | true =>
        simp only [playMusic, hp, hpl]
        exact inv_set_flags false true hinv
      | false =>
        simp only [playMusic, hp, hpl]
        exact hinv
  | some name =>
    have hselOk : ptrOk s.arena.length (mapGet s.song_map name) := by
      cases hg : mapGet s.song_map name with
      | none => trivial
      | some i =>
        have := (mapGet_chain_mem hmap hg).1
        exact chainSeg_mem_lt hseg i this
    by_cases heq : s.current_song_node = mapGet s.song_map name
    · cases hp : s.is_paused with
      | true =>
        have e : (playMusic s (some name) ok).1 =
            { s with is_playing := true, is_paused := false } := by
          simp [playMusic, heq, hp]
        rw [e]
        exact inv_set_flags true false hinv
      | false =>
        cases hpl : s.is_playing with
        | true =>
          have e : (playMusic s (some name) ok).1 =
              { s with is_playing := false, is_paused := true } := by
            simp [playMusic, heq, hp, hpl]
          rw [e]
          exact inv_set_flags false true hinv
        | false =>
          have e : (playMusic s (some name) ok).1 =
              playFromNode s (mapGet s.song_map name) ok := by
            simp [playMusic, heq, hp, hpl]
          rw [e]
          exact inv_playFromNode hinv
    · cases hcn : s.current_song_node with
      | none =>
        rw [hcn] at heq
        have e : (playMusic s (some name) ok).1 =
            playFromNode { s with current_song_node := mapGet s.song_map name }
              (mapGet s.song_map name) ok := by
          simp [playMusic, heq, hcn]
        rw [e]
        apply inv_playFromNode
        exact ⟨ns, hseg, hnd, hmap, hnames, hselOk, hhist, hptr⟩
      | some c =>
        rw [hcn] at heq
        have hclt : c < s.arena.length := by rw [hcn] at hcur; exact hcur
        have e : (playMusic s (some name) ok).1 =
            playFromNode { s with
              history := s.history ++ [c]
              current_song_node := mapGet s.song_map name } (mapGet s.song_map name) ok := by
          simp [playMusic, heq, hcn]
        rw [e]
        apply inv_playFromNode
        refine ⟨ns, hseg, hnd, hmap, hnames, hselOk, ?_, hptr⟩
        intro x hx
        rcases List.mem_append.1 hx with hx1 | hx2
        · exact hhist x hx1
        · have : x = c := by cases hx2 with | head => rfl | tail _ hx3 => cases hx3
          rw [this]
          exact hclt

/-- Core of delete preservation: unlinking chain member `i` and erasing its
name keeps every invariant component, with the chain shrunk to `xs ++ ys`. -/
lemma inv_delete_core {s : Player} {i : Nat} {name : String} {xs ys : List Nat}
    {m : Option Nat × Option Nat}
    (hIlt : i < s.arena.length)
    (hxs_seg : chainSeg s.arena none s.head xs m)
    (f1 : m.2 = some i)
    (f3 : (nodeAt s.arena i).prev = m.1)
    (f4 : chainSeg s.arena (some i) (nodeAt s.arena i).next ys (s.tail, none))
    (hnd : (xs ++ i :: ys).Nodup)
    (hmap : s.song_map = (xs ++ i :: ys).map (fun j => (trackName s.arena j, j)))
    (hnames : ((xs ++ i :: ys).map (fun j => trackName s.arena j)).Nodup)
    (hiname : trackName s.arena i = name)
    (hcur : ptrOk s.arena.length s.current_song_node)
    (hhist : ∀ x ∈ s.history, x < s.arena.length)
    (hptr : ∀ j, j < s.arena.length →
      ptrOk s.arena.length (nodeAt s.arena j).next ∧
      ptrOk s.arena.length (nodeAt s.arena j).prev) :
    Inv { dllDeleteSong s i with song_map := eraseKey (dllDeleteSong s i).song_map name } := by
  have hnd1 := (List.nodup_append.1 hnd).1
  have hnd2 := (List.nodup_append.1 hnd).2.1
  have hdisj := (List.nodup_append.1 hnd).2.2
  have hIxs : i ∉ xs := fun hmem => hdisj hmem (List.mem_cons_self i ys)
  have hIys : i ∉ ys := (List.nodup_cons.1 hnd2).1
  have hysnd : ys.Nodup := (List.nodup_cons.1 hnd2).2
  have hxy : ∀ x ∈ xs, x ∉ ys := fun x hx hy => hdisj hx (List.mem_cons_of_mem i hy)
  have hxs_lt : ∀ j ∈ xs, j < s.arena.length := chainSeg_mem_lt hxs_seg
  have hys_lt : ∀ j ∈ ys, j < s.arena.length := chainSeg_mem_lt f4
  have hnames2 := hnames
  rw [List.map_append, List.map_cons, List.nodup_append] at hnames2
  have hname_xs : ∀ j ∈ xs, trackName s.arena j ≠ name := by
    intro j hj hcontra
    exact hnames2.2.2 (List.mem_map_of_mem _ hj)
      (by rw [hcontra, ← hiname]; exact List.mem_cons_self _ _)
  have hmap_decomp : s.song_map =
      xs.map (fun j => (trackName s.arena j, j)) ++
        (name, i) :: ys.map (fun j => (trackName s.arena j, j)) := by
    rw [hmap, List.map_append, List.map_cons, hiname]
  have herase : eraseKey s.song_map name =
      xs.map (fun j => (trackName s.arena j, j)) ++ ys.map (fun j => (trackName s.arena j, j)) := by
    rw [hmap_decomp]
    exact eraseKey_append (by
      intro pr hpr
      obtain ⟨j, hj, rfl⟩ := List.mem_map.1 hpr
      exact hname_xs j hj)
  rcases List.eq_nil_or_concat xs with rfl | ⟨xs0, LX, hxs⟩
  · -- the deleted node is the head
    have hm : m = (none, s.head) := hxs_seg
    have hm1 : m.1 = (none : Option Nat) := by rw [hm]
    have hprev : (nodeAt s.arena i).prev = none := by rw [f3, hm1]
    cases ys with
    | nil =>
      -- sole element: store becomes empty
      have hy : ((s.tail, none) : Option Nat × Option Nat) =
          (some i, (nodeAt s.arena i).next) := f4
      simp only [Prod.mk.injEq] at hy
      rw [dllDeleteSong_noLinks hprev hy.2.symm]
      have hmap3 : eraseKey s.song_map name = [] := by rw [herase]; rfl
      refine ⟨[], rfl, List.nodup_nil, hmap3, List.nodup_nil, ?_, ?_, ?_⟩
      · show ptrOk (s.arena.set i _).length s.current_song_node
        rw [List.length_set]
        exact hcur
      · intro x hx
        show x < (s.arena.set i _).length
        rw [List.length_set]
        exact hhist x hx
      · exact hptr_set hIlt hptr trivial trivial
    | cons y0 ys2 =>
      -- successor y0 becomes the new head
      obtain ⟨g1, g2, g3, g4⟩ := f4
      have hiy0 : i ≠ y0 := fun he => hIys (he ▸ List.mem_cons_self y0 ys2)
      have e_n1 : nodeAt (s.arena.set y0 { nodeAt s.arena y0 with prev := none }) i =
          nodeAt s.arena i := nodeAt_set_other hiy0
      have hDel : dllDeleteSong s i = { s with
          head := some y0
          arena := (s.arena.set y0 { nodeAt s.arena y0 with prev := none }).set i
            { nodeAt s.arena i with next := none, prev := none } } := by
        simp only [dllDeleteSong, hprev, g1, e_n1]
      have hlenB : ((s.arena.set y0 { nodeAt s.arena y0 with prev := none }).set i
          { nodeAt s.arena i with next := none, prev := none }).length = s.arena.length := by
        simp
      have e_y0 : nodeAt ((s.arena.set y0 { nodeAt s.arena y0 with prev := none }).set i
          { nodeAt s.arena i with next := none, prev := none }) y0 =
          { nodeAt s.arena y0 with prev := none } := by
        rw [nodeAt_set_other (fun he => hiy0 he.symm), nodeAt_set_self g2]
      have e_other : ∀ j, j ≠ i → j ≠ y0 →
          nodeAt ((s.arena.set y0 { nodeAt s.arena y0 with prev := none }).set i
            { nodeAt s.arena i with next := none, prev := none }) j = nodeAt s.arena j := by
        intro j hji hjy
        rw [nodeAt_set_other hji, nodeAt_set_other hjy]
      have hy0nd : y0 ∉ ys2 := (List.nodup_cons.1 hysnd).1
      have hys2same : ∀ j ∈ ys2, nodeAt ((s.arena.set y0 { nodeAt s.arena y0 with prev := none }).set i
          { nodeAt s.arena i with next := none, prev := none }) j = nodeAt s.arena j := by
        intro j hj
        exact e_other j (fun he => hIys (he ▸ List.mem_cons_of_mem y0 hj))
          (fun he => hy0nd (he ▸ hj))
      have hdata : ∀ j ∈ y0 :: ys2, trackName ((s.arena.set y0 { nodeAt s.arena y0 with prev := none }).set i
          { nodeAt s.arena i with next := none, prev := none }) j = trackName s.arena j := by
        intro j hj
        rcases List.mem_cons.1 hj with rfl | hj2
        · rw [trackName, trackName, e_y0]
        · rw [trackName, trackName, hys2same j hj2]
      have hchain : chainSeg ((s.arena.set y0 { nodeAt s.arena y0 with prev := none }).set i
          { nodeAt s.arena i with next := none, prev := none }) none (some y0) (y0 :: ys2)
          (s.tail, none) := by
        refine ⟨rfl, by rw [hlenB]; exact g2, by rw [e_y0], ?_⟩
        rw [e_y0]
        exact chainSeg_congr (by rw [hlenB]) hys2same g4
      have hmap3 : eraseKey s.song_map name =
          (y0 :: ys2).map (fun j => (trackName ((s.arena.set y0 { nodeAt s.arena y0 with prev := none }).set i
            { nodeAt s.arena i with next := none, prev := none }) j, j)) := by
        rw [herase]
        show (y0 :: ys2).map (fun j => (trackName s.arena j, j)) = _
        exact (List.map_congr_left (fun j hj => by rw [hdata j hj])).symm
      have hnames3 : ((y0 :: ys2).map (fun j => trackName ((s.arena.set y0 { nodeAt s.arena y0 with prev := none }).set i
          { nodeAt s.arena i with next := none, prev := none }) j)).Nodup := by
        have heq : (y0 :: ys2).map (fun j => trackName ((s.arena.set y0 { nodeAt s.arena y0 with prev := none }).set i
            { nodeAt s.arena i with next := none, prev := none }) j) =
            (y0 :: ys2).map (fun j => trackName s.arena j) :=
          List.map_congr_left (fun j hj => hdata j hj)
        rw [heq]
        exact (List.nodup_cons.1 hnames2.2.1).2
      rw [hDel]
      refine ⟨y0 :: ys2, hchain, hysnd, hmap3, hnames3, ?_, ?_, ?_⟩
      · show ptrOk ((s.arena.set y0 _).set i _).length s.current_song_node
        rw [hlenB]
        exact hcur
      · intro x hx
        show x < ((s.arena.set y0 _).set i _).length
        rw [hlenB]
        exact hhist x hx
      · refine hptr_set (by rw [List.length_set]; exact hIlt) ?_ trivial trivial
        refine hptr_set g2 hptr ?_ trivial
        exact (hptr y0 g2).1
  · -- the deleted node has a predecessor LX
    rw [List.concat_eq_append] at hxs
    subst hxs
    obtain ⟨m0, hxs0_seg, hLX⟩ := chainSeg_append.1 hxs_seg
    obtain ⟨q1, q2, q3, q4⟩ := hLX
    have hq4 : m = (some LX, (nodeAt s.arena LX).next) := q4
    have hm1 : m.1 = some LX := by rw [hq4]
    have hLXnext : (nodeAt s.arena LX).next = some i := by
      have := f1
      rw [hq4] at this
      exact this
    have hprev : (nodeAt s.arena i).prev = some LX := by rw [f3, hm1]
    have hiLX : i ≠ LX := fun he =>
      hIxs (by rw [he]; exact List.mem_append_right xs0 (List.mem_cons_self LX []))
    have hLXxs0 : LX ∉ xs0 := by
      intro hmem
      have := List.nodup_append.1 hnd1
      exact this.2.2 hmem (List.mem_cons_self LX [])
    have hLXlt : LX < s.arena.length := q2
    cases ys with
    | nil =>
      -- LX becomes the new tail
      have hy : ((s.tail, none) : Option Nat × Option Nat) =
          (some i, (nodeAt s.arena i).next) := f4
      simp only [Prod.mk.injEq] at hy
      have hinext : (nodeAt s.arena i).next = none := hy.2.symm
      have e_n1 : nodeAt (s.arena.set LX { nodeAt s.arena LX with next := none }) i =
          nodeAt s.arena i := nodeAt_set_other hiLX
      have hDel : dllDeleteSong s i = { s with
          tail := some LX
          arena := (s.arena.set LX { nodeAt s.arena LX with next := none }).set i
            { nodeAt s.arena i with next := none, prev := none } } := by
        simp only [dllDeleteSong, hprev, hinext, e_n1]
      have hlenC : ((s.arena.set LX { nodeAt s.arena LX with next := none }).set i
          { nodeAt s.arena i with next := none, prev := none }).length = s.arena.length := by
        simp
      have e_LX : nodeAt ((s.arena.set LX { nodeAt s.arena LX with next := none }).set i
          { nodeAt s.arena i with next := none, prev := none }) LX =
          { nodeAt s.arena LX with next := none } := by
        rw [nodeAt_set_other (fun he => hiLX he.symm), nodeAt_set_self hLXlt]
      have e_other : ∀ j, j ≠ i → j ≠ LX →
          nodeAt ((s.arena.set LX { nodeAt s.arena LX with next := none }).set i
            { nodeAt s.arena i with next := none, prev := none }) j = nodeAt s.arena j := by
        intro j hji hjLX
        rw [nodeAt_set_other hji, nodeAt_set_other hjLX]
      have hxs0same : ∀ j ∈ xs0, nodeAt ((s.arena.set LX { nodeAt s.arena LX with next := none }).set i
          { nodeAt s.arena i with next := none, prev := none }) j = nodeAt s.arena j := by
        intro j hj
        exact e_other j (fun he => hIxs (he ▸ List.mem_append_left _ hj))
          (fun he => hLXxs0 (he ▸ hj))
      have hdata : ∀ j ∈ xs0 ++ [LX], trackName ((s.arena.set LX { nodeAt s.arena LX with next := none }).set i
          { nodeAt s.arena i with next := none, prev := none }) j = trackName s.arena j := by
        intro j hj
        rcases List.mem_append.1 hj with hj0 | hjL
        · rw [trackName, trackName, hxs0same j hj0]
        · have : j = LX := by cases hjL with | head => rfl | tail _ hx3 => cases hx3
          rw [this, trackName, trackName, e_LX]
      have hchain : chainSeg ((s.arena.set LX { nodeAt s.arena LX with next := none }).set i
          { nodeAt s.arena i with next := none, prev := none }) none s.head (xs0 ++ [LX])
          (some LX, none) := by
        apply chainSeg_append.2
        refine ⟨m0, chainSeg_congr (by rw [hlenC]) hxs0same hxs0_seg, ?_⟩
        refine ⟨q1, by rw [hlenC]; exact hLXlt, by rw [e_LX]; exact q3, ?_⟩
        rw [e_LX]
        exact rfl
      have hmap3 : eraseKey s.song_map name =
          (xs0 ++ [LX]).map (fun j => (trackName ((s.arena.set LX { nodeAt s.arena LX with next := none }).set i
            { nodeAt s.arena i with next := none, prev := none }) j, j)) := by
        rw [herase]
        show (xs0 ++ [LX]).map (fun j => (trackName s.arena j, j)) ++ [] = _
        rw [List.append_nil]
        exact (List.map_congr_left (fun j hj => by rw [hdata j hj])).symm
      have hnames3 : ((xs0 ++ [LX]).map (fun j => trackName ((s.arena.set LX { nodeAt s.arena LX with next := none }).set i
          { nodeAt s.arena i with next := none, prev := none }) j)).Nodup := by
        have heq : (xs0 ++ [LX]).map (fun j => trackName ((s.arena.set LX { nodeAt s.arena LX with next := none }).set i
            { nodeAt s.arena i with next := none, prev := none }) j) =
            (xs0 ++ [LX]).map (fun j => trackName s.arena j) :=
          List.map_congr_left (fun j hj => hdata j hj)
        rw [heq]
        exact hnames2.1
      rw [hDel]
      refine ⟨xs0 ++ [LX], hchain, hnd1, hmap3, hnames3, ?_, ?_, ?_⟩
      · show ptrOk ((s.arena.set LX _).set i _).length s.current_song_node
        rw [hlenC]
        exact hcur
      · intro x hx
        show x < ((s.arena.set LX _).set i _).length
        rw [hlenC]
        exact hhist x hx
      · refine hptr_set (by rw [List.length_set]; exact hIlt) ?_ trivial trivial
        refine hptr_set hLXlt hptr trivial ?_
        exact (hptr LX hLXlt).2
    | cons y0 ys2 =>
      -- interior deletion: LX is re-linked to y0
      obtain ⟨g1, g2, g3, g4⟩ := f4
      have hiy0 : i ≠ y0 := fun he => hIys (he ▸ List.mem_cons_self y0 ys2)
      have hLXy0 : LX ≠ y0 := fun he =>
        hxy LX (List.mem_append_right xs0 (List.mem_cons_self LX []))
          (he ▸ List.mem_cons_self y0 ys2)
      have hy0lt : y0 < s.arena.length := g2
      have e_n1 : nodeAt (s.arena.set LX { nodeAt s.arena LX with next := some y0 }) i =
          nodeAt s.arena i := nodeAt_set_other hiLX
      have e_y0a1 : nodeAt (s.arena.set LX { nodeAt s.arena LX with next := some y0 }) y0 =
          nodeAt s.arena y0 := nodeAt_set_other (fun he => hLXy0 he.symm)
      have e_n2 : nodeAt ((s.arena.set LX { nodeAt s.arena LX with next := some y0 }).set y0
          { nodeAt s.arena y0 with prev := some LX }) i = nodeAt s.arena i := by
        rw [nodeAt_set_other hiy0, e_n1]
      have hDel : dllDeleteSong s i = { s with
          arena := (((s.arena.set LX { nodeAt s.arena LX with next := some y0 }).set y0
            { nodeAt s.arena y0 with prev := some LX }).set i
            { nodeAt s.arena i with next := none, prev := none }) } := by
        simp only [dllDeleteSong, hprev, g1, e_n1, e_y0a1, e_n2]
      have hlenD : ((((s.arena.set LX { nodeAt s.arena LX with next := some y0 }).set y0
          { nodeAt s.arena y0 with prev := some LX }).set i
          { nodeAt s.arena i with next := none, prev := none })).length = s.arena.length := by
        simp
      have e_LX : nodeAt (((s.arena.set LX { nodeAt s.arena LX with next := some y0 }).set y0
          { nodeAt s.arena y0 with prev := some LX }).set i
          { nodeAt s.arena i with next := none, prev := none }) LX =
          { nodeAt s.arena LX with next := some y0 } := by
        rw [nodeAt_set_other (fun he => hiLX he.symm), nodeAt_set_other hLXy0,
          nodeAt_set_self hLXlt]
      have e_y0 : nodeAt (((s.arena.set LX { nodeAt s.arena LX with next := some y0 }).set y0
          { nodeAt s.arena y0 with prev := some LX }).set i
          { nodeAt s.arena i with next := none, prev := none }) y0 =
          { nodeAt s.arena y0 with prev := some LX } := by
        rw [nodeAt_set_other (fun he => hiy0 he.symm),
          nodeAt_set_self (by rw [List.length_set]; exact hy0lt)]
      have e_other : ∀ j, j ≠ i → j ≠ LX → j ≠ y0 →
          nodeAt (((s.arena.set LX { nodeAt s.arena LX with next := some y0 }).set y0
            { nodeAt s.arena y0 with prev := some LX }).set i
            { nodeAt s.arena i with next := none, prev := none }) j = nodeAt s.arena j := by
        intro j hji hjLX hjy0
        rw [nodeAt_set_other hji, nodeAt_set_other hjy0, nodeAt_set_other hjLX]
      have hy0nd : y0 ∉ ys2 := (List.nodup_cons.1 hysnd).1
      have hxs0same : ∀ j ∈ xs0, nodeAt (((s.arena.set LX { nodeAt s.arena LX with next := some y0 }).set y0
          { nodeAt s.arena y0 with prev := some LX }).set i
          { nodeAt s.arena i with next := none, prev := none }) j = nodeAt s.arena j := by
        intro j hj
        refine e_other j (fun he => hIxs (he ▸ List.mem_append_left _ hj))
          (fun he => hLXxs0 (he ▸ hj)) ?_
        intro he
        exact hxy j (List.mem_append_left _ hj) (he ▸ List.mem_cons_self y0 ys2)
      have hys2same : ∀ j ∈ ys2, nodeAt (((s.arena.set LX { nodeAt s.arena LX with next := some y0 }).set y0
          { nodeAt s.arena y0 with prev := some LX }).set i
          { nodeAt s.arena i with next := none, prev := none }) j = nodeAt s.arena j := by
        intro j hj
        refine e_other j (fun he => hIys (he ▸ List.mem_cons_of_mem y0 hj)) ?_
          (fun he => hy0nd (he ▸ hj))
        intro he
        exact hxy LX (List.mem_append_right xs0 (List.mem_cons_self LX []))
          (he ▸ List.mem_cons_of_mem y0 hj)
      have hdata : ∀ j ∈ (xs0 ++ [LX]) ++ y0 :: ys2,
          trackName (((s.arena.set LX { nodeAt s.arena LX with next := some y0 }).set y0
            { nodeAt s.arena y0 with prev := some LX }).set i
            { nodeAt s.arena i with next := none, prev := none }) j = trackName s.arena j := by
        intro j hj
        rcases List.mem_append.1 hj with hjx | hjy
        · rcases List.mem_append.1 hjx with hj0 | hjL
          · rw [trackName, trackName, hxs0same j hj0]
          · have : j = LX := by cases hjL with | head => rfl | tail _ hx3 => cases hx3
            rw [this, trackName, trackName, e_LX]
        · rcases List.mem_cons.1 hjy with rfl | hj2
          · rw [trackName, trackName, e_y0]
          · rw [trackName, trackName, hys2same j hj2]
      have hchain : chainSeg (((s.arena.set LX { nodeAt s.arena LX with next := some y0 }).set y0
          { nodeAt s.arena y0 with prev := some LX }).set i
          { nodeAt s.arena i with next := none, prev := none }) none s.head
          ((xs0 ++ [LX]) ++ y0 :: ys2) (s.tail, none) := by
        apply chainSeg_append.2
        refine ⟨(some LX, some y0), ?_, ?_⟩
        · apply chainSeg_append.2
          refine ⟨m0, chainSeg_congr (by rw [hlenD]) hxs0same hxs0_seg, ?_⟩
          refine ⟨q1, by rw [hlenD]; exact hLXlt, by rw [e_LX]; exact q3, ?_⟩
          rw [e_LX]
          exact rfl
        · refine ⟨rfl, by rw [hlenD]; exact hy0lt, by rw [e_y0], ?_⟩
          rw [e_y0]
          exact chainSeg_congr (by rw [hlenD]) hys2same g4
      have hmap3 : eraseKey s.song_map name =
          ((xs0 ++ [LX]) ++ y0 :: ys2).map (fun j =>
            (trackName (((s.arena.set LX { nodeAt s.arena LX with next := some y0 }).set y0
              { nodeAt s.arena y0 with prev := some LX }).set i
              { nodeAt s.arena i with next := none, prev := none }) j, j)) := by
        rw [herase, ← List.map_append]
        exact (List.map_congr_left (fun j hj => by rw [hdata j hj])).symm
      have hnames3 : (((xs0 ++ [LX]) ++ y0 :: ys2).map (fun j =>
          trackName (((s.arena.set LX { nodeAt s.arena LX with next := some y0 }).set y0
            { nodeAt s.arena y0 with prev := some LX }).set i
            { nodeAt s.arena i with next := none, prev := none }) j)).Nodup := by
        have heq : ((xs0 ++ [LX]) ++ y0 :: ys2).map (fun j =>
            trackName (((s.arena.set LX { nodeAt s.arena LX with next := some y0 }).set y0
              { nodeAt s.arena y0 with prev := some LX }).set i
              { nodeAt s.arena i with next := none, prev := none }) j) =
            ((xs0 ++ [LX]) ++ y0 :: ys2).map (fun j => trackName s.arena j) :=
          List.map_congr_left (fun j hj => hdata j hj)
        rw [heq, List.map_append]
        rw [List.nodup_append]
        refine ⟨hnames2.1, (List.nodup_cons.1 hnames2.2.1).2, ?_⟩
        intro a ha ha2
        exact hnames2.2.2 ha (List.mem_cons_of_mem _ ha2)
      rw [hDel]
      refine ⟨(xs0 ++ [LX]) ++ y0 :: ys2, hchain, ?_, hmap3, hnames3, ?_, ?_, ?_⟩
      · rw [List.nodup_append]
        refine ⟨hnd1, hysnd, ?_⟩
        intro a ha ha2
        exact hdisj ha (List.mem_cons_of_mem i ha2)
      · show ptrOk (((s.arena.set LX _).set y0 _).set i _).length s.current_song_node
        rw [hlenD]
        exact hcur
      · intro x hx
        show x < (((s.arena.set LX _).set y0 _).set i _).length
        rw [hlenD]
        exact hhist x hx
      · refine hptr_set (by simp only [List.length_set]; exact hIlt) ?_ trivial trivial
        refine hptr_set (by rw [List.length_set]; exact hy0lt) ?_ ?_ ?_
        · refine hptr_set hLXlt hptr ?_ ?_
          · show ptrOk s.arena.length (some y0)
            exact hy0lt
          · exact (hptr LX hLXlt).2
        · show ptrOk (s.arena.set LX _).length (nodeAt s.arena y0).next
          rw [List.length_set]
          exact (hptr y0 hy0lt).1
        · show ptrOk (s.arena.set LX _).length (some LX)
          rw [List.length_set]
          exact hLXlt

/-- `delete_song` (the command) preserves the invariant. -/
lemma inv_deleteSong {s : Player} {sel : Option String} (h : Inv s) :
    Inv (deleteSongCmd s sel).1 := by
  obtain ⟨ns, hseg, hnd, hmap, hnames, hcur, hhist, hptr⟩ := h
  cases sel with
  | none => exact ⟨ns, hseg, hnd, hmap, hnames, hcur, hhist, hptr⟩
  | some name =>
    cases hg : mapGet s.song_map name with
    | none =>
      have e : (deleteSongCmd s (some name)).1 = s := by simp [deleteSongCmd, hg]
      rw [e]
      exact ⟨ns, hseg, hnd, hmap, hnames, hcur, hhist, hptr⟩
    | some i =>
      obtain ⟨himem, hiname⟩ := mapGet_chain_mem hmap hg
      obtain ⟨xs, ys, hsplit⟩ := List.mem_iff_append.1 himem
      subst hsplit
      have hIlt : i < s.arena.length :=
        chainSeg_mem_lt hseg i (List.mem_append_right xs (List.mem_cons_self i ys))
      obtain ⟨m, hxs_seg, hrest⟩ := chainSeg_append.1 hseg
      obtain ⟨f1, f2, f3, f4⟩ := hrest
      by_cases hcc : s.current_song_node = some i
      · have e : (deleteSongCmd s (some name)).1 =
            { dllDeleteSong { s with
                is_playing := false
                is_paused := false
                current_song_node := none } i with
              song_map := eraseKey (dllDeleteSong { s with
                is_playing := false
                is_paused := false
                current_song_node := none } i).song_map name } := by
          simp [deleteSongCmd, hg, hcc, stopMusic]
        rw [e]
        exact inv_delete_core hIlt hxs_seg f1 f3 f4 hnd hmap hnames hiname trivial hhist hptr
      · have e : (deleteSongCmd s (some name)).1 =
            { dllDeleteSong s i with
              song_map := eraseKey (dllDeleteSong s i).song_map name } := by
          simp [deleteSongCmd, hg, hcc]
        rw [e]
        exact inv_delete_core hIlt hxs_seg f1 f3 f4 hnd hmap hnames hiname hcur hhist hptr

/-- Every operation preserves the invariant. -/
lemma inv_applyOp {s : Player} (o : Op) (h : Inv s) : Inv (applyOp s o) := by
  cases o with
  | addTracks ps => exact inv_addSongs h
  | deleteTrack sel => exact inv_deleteSong h
  | clearAll => exact inv_clearPlaylist h
  | playSelected sel ok => exact inv_playMusic h
  | stopIntent => exact inv_stopMusic h
  | goNext ok => exact inv_nextSong h
  | goPrev ok => exact inv_prevSong h
  | searchFor q => exact inv_searchSong h
  | songEnd => exact inv_trackEnded h

/-- The structural invariant holds in every reachable state. -/
lemma inv_reachable {s : Player} (h : Reachable s) : Inv s := by
  induction h with
  | init => exact inv_init
  | step s o hs ih => exact inv_applyOp o ih

/-- The stale-history scenario really is a run of the player. -/
lemma staleHistoryState_reachable : Reachable staleHistoryState :=
  Reachable.step _ (Op.goPrev true)
    (Reachable.step _ (Op.deleteTrack (some "a.mp3"))
      (Reachable.step _ (Op.playSelected (some "b.mp3") true)
        (Reachable.step _ (Op.playSelected (some "a.mp3") true)
          (Reachable.step _ (Op.addTracks ["a.mp3", "b.mp3"]) Reachable.init))))

lemma flags_addOne (s : Player) (p : String) :
    (addOne s p).is_playing = s.is_playing ∧ (addOne s p).is_paused = s.is_paused := by
  rw [addOne]
  split
  · exact ⟨rfl, rfl⟩
  · unfold dllAddSong
    dsimp only
    split
    · exact ⟨rfl, rfl⟩
    · split
      · exact ⟨rfl, rfl⟩
      · exact ⟨rfl, rfl⟩

lemma flags_addSongs {s : Player} {paths : List String}
    (h : (s.is_playing && s.is_paused) = false) :
    ((addSongs s paths).is_playing && (addSongs s paths).is_paused) = false := by
  induction paths generalizing s with
  | nil => exact h
  | cons p ps ih =>
    show ((addSongs (addOne s p) ps).is_playing && (addSongs (addOne s p) ps).is_paused) = false
    apply ih
    rw [(flags_addOne s p).1, (flags_addOne s p).2]
    exact h

lemma flags_dllDeleteSong (s : Player) (i : Nat) :
    (dllDeleteSong s i).is_playing = s.is_playing ∧
    (dllDeleteSong s i).is_paused = s.is_paused := by
  unfold dllDeleteSong
  dsimp only
  split <;> split <;> exact ⟨rfl, rfl⟩

lemma flags_playFromNode {s : Player} {node : Option Nat} {ok : Bool}
    (h : (s.is_playing && s.is_paused) = false) :
    ((playFromNode s node ok).is_playing && (playFromNode s node ok).is_paused) = false := by
  cases node with
  | none => exact h
  | some i => cases ok <;> simp [playFromNode]

lemma flags_applyOp {s : Player} (o : Op)
    (h : (s.is_playing && s.is_paused) = false) :
    ((applyOp s o).is_playing && (applyOp s o).is_paused) = false := by
  cases o with
  | addTracks ps => exact flags_addSongs h
  | deleteTrack sel =>
    cases sel with
    | none => exact h
    | some name =>
      show ((deleteSongCmd s (some name)).1.is_playing &&
        (deleteSongCmd s (some name)).1.is_paused) = false
      cases hg : mapGet s.song_map name with
      | none => simpa [deleteSongCmd, hg] using h
      | some i =>
        by_cases hcc : s.current_song_node = some i
        · have e : (deleteSongCmd s (some name)).1 =
              { dllDeleteSong { s with
                  is_playing := false
                  is_paused := false
                  current_song_node := none } i with
                song_map := eraseKey (dllDeleteSong { s with
                  is_playing := false
                  is_paused := false
                  current_song_node := none } i).song_map name } := by
            simp [deleteSongCmd, hg, hcc, stopMusic]
          rw [e]
          show ((dllDeleteSong _ i).is_playing && (dllDeleteSong _ i).is_paused) = false
          rw [(flags_dllDeleteSong _ i).1, (flags_dllDeleteSong _ i).2]
          rfl
        · have e : (deleteSongCmd s (some name)).1 =
              { dllDeleteSong s i with
                song_map := eraseKey (dllDeleteSong s i).song_map name } := by
            simp [deleteSongCmd, hg, hcc]
          rw [e]
          show ((dllDeleteSong s i).is_playing && (dllDeleteSong s i).is_paused) = false
          rw [(flags_dllDeleteSong s i).1, (flags_dllDeleteSong s i).2]
          exact h
  | clearAll => rfl
  | playSelected sel ok =>
    cases sel with
    | none =>
      show ((playMusic s none ok).1.is_playing && (playMusic s none ok).1.is_paused) = false
      cases hp : s.is_paused with
      | true => simp [playMusic, hp]
      | false =>
        cases hpl : s.is_playing with
        | true => simp [playMusic, hp, hpl]
        | false => simp [playMusic, hp, hpl]
    | some name =>
      show ((playMusic s (some name) ok).1.is_playing &&
        (playMusic s (some name) ok).1.is_paused) = false
      by_cases heq : s.current_song_node = mapGet s.song_map name
      · cases hp : s.is_paused with
        | true => simp [playMusic, heq, hp]
        | false =>
          cases hpl : s.is_playing with
          | true => simp [playMusic, heq, hp, hpl]
          | false =>
            have e : (playMusic s (some name) ok).1 =
                playFromNode s (mapGet s.song_map name) ok := by
              simp [playMusic, heq, hp, hpl]
            rw [e]
            exact flags_playFromNode h
      · cases hcn : s.current_song_node with
        | none =>
          rw [hcn] at heq
          have e : (playMusic s (some name) ok).1 =
              playFromNode { s with current_song_node := mapGet s.song_map name }
                (mapGet s.song_map name) ok := by
            simp [playMusic, heq, hcn]
          rw [e]
          exact flags_playFromNode h
        | some c =>
          rw [hcn] at heq
          have e : (playMusic s (some name) ok).1 =
              playFromNode { s with
                history := s.history ++ [c]
                current_song_node := mapGet s.song_map name } (mapGet s.song_map name) ok := by
            simp [playMusic, heq, hcn]
          rw [e]
          exact flags_playFromNode h
  | stopIntent => rfl
  | goNext ok =>
    show ((nextSong s ok).1.is_playing && (nextSong s ok).1.is_paused) = false
    cases hc : s.current_song_node with
    | none => simpa [nextSong, hc] using h
    | some i =>
      cases hn : (nodeAt s.arena i).next with
      | none => simpa [nextSong, hc, hn] using h
      | some j =>
        have e : (nextSong s ok).1 =
            playFromNode { s with
              history := s.history ++ [i]
              current_song_node := some j } (some j) ok := by
          simp [nextSong, hc, hn]
        rw [e]
        exact flags_playFromNode h
  | goPrev ok =>
    show ((prevSong s ok).1.is_playing && (prevSong s ok).1.is_paused) = false
    cases hl : s.history.getLast? with
    | none => simpa [prevSong, hl] using h
    | some hd =>
      have e : (prevSong s ok).1 =
          playFromNode { s with
            history := s.history.dropLast
            current_song_node := some hd } (some hd) ok := by
        simp [prevSong, hl]
      rw [e]
      exact flags_playFromNode h
  | searchFor q =>
    show ((searchSong s q).1.is_playing && (searchSong s q).1.is_paused) = false
    rw [searchSong_fst]
    exact h
  | songEnd => rfl

/-- In every reachable state the two flags are never simultaneously set. -/
lemma flags_reachable {s : Player} (h : Reachable s) :
    (s.is_playing && s.is_paused) = false := by
  induction h with
  | init => rfl
  | step s o hs ih => exact flags_applyOp o ih

/-- C1: in every reachable state (any sequence of add, delete, clear, play,
stop, next, previous, search and end-of-track events from the fresh player)
the keys of `song_map` are exactly the names of the tracks linked in the
`DoublyLinkedList`, even in the same order. -/
theorem C1_index_matches_store (s : Player) (h : Reachable s) :
    mapKeys s.song_map = linkedNames s := by
  obtain ⟨ns, hseg, hnd, hmap, hnames, hcur, hhist, hptr⟩ := inv_reachable h
  rw [mapKeys, hmap, linkedNames, linkedIds_eq hseg hnd, List.map_map]
  rfl

/-- C1 witness: the invariant evaluated on the two-track state. -/
theorem C1_witness : mapKeys alphaBeta.song_map = linkedNames alphaBeta :=
  C1_index_matches_store alphaBeta
    (Reachable.step _ (Op.addTracks ["alpha.mp3", "beta.mp3"]) Reachable.init)

/-- C2 counterexample: the state after add a,b; play a; play b; delete a;
previous is reachable, yet its current track (slot 0, the deleted `a.mp3`)
is not linked in the TrackStore (whose chain is `[1]`): `prev_song` popped a
stale history entry. -/
theorem C2_counterexample :
    Reachable staleHistoryState ∧
    staleHistoryState.current_song_node = some 0 ∧
    (linkedIds staleHistoryState).contains 0 = false ∧
    staleHistoryState.song_map = [("b.mp3", 1)] :=
  ⟨staleHistoryState_reachable, by decide, by decide, by decide⟩

/-- C2 amended: in every reachable state the current-track reference is
null or a valid allocated track (an in-range arena slot); it need not be
linked in the TrackStore — after a `Previous` that pops a history entry of a
track deleted while not current, it refers to an unlinked track. -/
theorem C2_current_allocated (s : Player) (h : Reachable s) :
    s.current_song_node = none ∨
      ∃ i, s.current_song_node = some i ∧ i < s.arena.length := by
  obtain ⟨ns, hseg, hnd, hmap, hnames, hcur, hhist, hptr⟩ := inv_reachable h
  cases hc : s.current_song_node with
  | none => exact Or.inl rfl
  | some i =>
    refine Or.inr ⟨i, rfl, ?_⟩
    rw [hc] at hcur
    exact hcur

/-- C2 witness: the amended statement evaluated on the stale-history
state. -/
theorem C2_witness :
    staleHistoryState.current_song_node = none ∨
      ∃ i, staleHistoryState.current_song_node = some i ∧
        i < staleHistoryState.arena.length :=
  C2_current_allocated staleHistoryState staleHistoryState_reachable

/-- C10: in every reachable state the two playback flags are never both
set: the pair `(is_playing, is_paused)` is one of `(false, false)` =
`Stopped`, `(true, false)` = `Playing`, `(false, true)` = `Paused`, so the
boolean encoding of the mode stays well-formed after every operation. -/
theorem C10_flags_exclusive (s : Player) (h : Reachable s) :
    ¬(s.is_playing = true ∧ s.is_paused = true) ∧
    ((s.is_playing, s.is_paused) = (false, false) ∧ mode s = Mode.stopped ∨
     (s.is_playing, s.is_paused) = (true, false) ∧ mode s = Mode.playing ∨
     (s.is_playing, s.is_paused) = (false, true) ∧ mode s = Mode.paused) := by
  have hf := flags_reachable h
  constructor
  · intro ⟨h1, h2⟩
    rw [h1, h2] at hf
    cases hf
  · cases hpl : s.is_playing with
    | true =>
      cases hp : s.is_paused with
      | true => rw [hpl, hp] at hf; cases hf
      | false =>
        refine Or.inr (Or.inl ⟨rfl, ?_⟩)
        rw [mode, hpl]
        rfl
    | false =>
      cases hp : s.is_paused with
      | true =>
        refine Or.inr (Or.inr ⟨rfl, ?_⟩)
        rw [mode, hpl, hp]
        rfl
      | false =>
        refine Or.inl ⟨rfl, ?_⟩
        rw [mode, hpl, hp]
        rfl

/-- C10 witness: the flag pair of the stale-history state (reached through
play, pause-free playback, delete and previous) is a legal encoding. -/
theorem C10_witness :
    ¬(staleHistoryState.is_playing = true ∧ staleHistoryState.is_paused = true) ∧
    ((staleHistoryState.is_playing, staleHistoryState.is_paused) = (false, false) ∧
        mode staleHistoryState = Mode.stopped ∨
     (staleHistoryState.is_playing, staleHistoryState.is_paused) = (true, false) ∧
        mode staleHistoryState = Mode.playing ∨
     (staleHistoryState.is_playing, staleHistoryState.is_paused) = (false, true) ∧
        mode staleHistoryState = Mode.paused) :=
  C10_flags_exclusive staleHistoryState staleHistoryState_reachable

end Musik
